import Mathlib

/-!
Shallow embedding of the signal.io Go server (package signal):
the connection registry, room table, event dispatch and the per-connection
lifecycle from src/server.go, and the helper functions from src/hepers.go.

Go strings are modelled as Lean String (List Char standing in for the byte
sequence where character-level processing is needed), Go slices as List,
Go maps as association lists (first binding wins on lookup, in-place
replacement on update, matching map semantics since keys stay unique),
and a nil Go map/slice entry as an absent association-list key.
Handler callbacks (type Event) are external application code; dispatch is
modelled by recording the invocation that the code would perform.
-/

namespace SignalIO

/-- Opaque payload value (Go: type Payload any). -/
structure Payload where
  data : String
deriving DecidableEq, Repr

/-- Go struct Message (types.go): eventName and payload of one frame. -/
structure Message where
  eventName : String
  payload : Payload
deriving DecidableEq, Repr

/-- Go struct Client (types.go). The Socket and HTTPRequest handles are
external transport objects and carry no registry/room-relevant state, so
they are not part of the embedding. -/
structure Client where
  connectionId : String
  auth : String
  query : List (String × String)
deriving DecidableEq, Repr

/-- Go struct signalIO (types.go): listeners, connections and rooms.
listeners is modelled by the set of event names that have a registered
handler (the key set of the map), which is all that dispatch inspects. -/
structure State where
  listeners : List String
  connections : List Client
  rooms : List (String × List Client)
deriving DecidableEq, Repr

/-- The init method of signalIO (server.go): fresh empty registry and
room table. -/
def initState : State :=
  { listeners := [], connections := [], rooms := [] }

/-- GetTotalConnections (server.go): len(socket.connections). -/
def GetTotalConnections (s : State) : Nat :=
  s.connections.length

/-- The connection ids currently in the registry. -/
def connIds (s : State) : List String :=
  s.connections.map (fun c => c.connectionId)

/-- The connection ids of the member list of a room. -/
def roomIds (cs : List Client) : List String :=
  cs.map (fun c => c.connectionId)

/-- Go map read rooms[roomId]: first binding for the key, none for a nil
entry (absent key). -/
def roomsGet : List (String × List Client) → String → Option (List Client)
  | [], _ => none
  | p :: rest, roomId => if p.1 = roomId then some p.2 else roomsGet rest roomId

/-- Go map write rooms[roomId] = cs: replace the existing binding in place,
or add one. -/
def roomsSet (rooms : List (String × List Client)) (roomId : String)
    (cs : List Client) : List (String × List Client) :=
  match rooms with
  | [] => [(roomId, cs)]
  | p :: rest =>
      if p.1 = roomId then (roomId, cs) :: rest
      else p :: roomsSet rest roomId cs

/-- IndexOf (hepers.go): index of the first client with the given
connectionId, or -1 if not found. The Go for-range loop with a running
index is rendered as structural recursion computing the same first index. -/
def IndexOf (connectionId : String) : List Client → Int
  | [] => -1
  | c :: rest =>
      if c.connectionId = connectionId then 0
      else
        let r := IndexOf connectionId rest
        if r = -1 then -1 else r + 1

/-- JoinRoom (server.go): create the room with the single client if the
room entry is nil; return unchanged if the client is already a member;
otherwise append the client. -/
def JoinRoom (s : State) (roomId : String) (client : Client) : State :=
  match roomsGet s.rooms roomId with
  | none => { s with rooms := roomsSet s.rooms roomId [client] }
  | some clients =>
      if IndexOf client.connectionId clients ≠ -1 then s
      else { s with rooms := roomsSet s.rooms roomId (clients ++ [client]) }

/-- The per-room body of cleanup (server.go): look up the position of the
departing connection; if absent leave the room as is; otherwise remove it
by index, and if the room is now empty delete the room (return none). -/
def cleanupRoom (connectionId : String) (clients : List Client) :
    Option (List Client) :=
  let position := IndexOf connectionId clients
  if position = -1 then some clients
  else
    let clients' := clients.eraseIdx position.toNat
    if clients'.length = 0 then none else some clients'

/-- cleanup (server.go): every room is processed independently (the Go code
spawns one goroutine per room key, each mutating only its own key under the
mutex, and waits for all of them); the joint effect is this per-key
transform of the room table. -/
def cleanup (s : State) (connectionId : String) : State :=
  { s with rooms := s.rooms.filterMap (fun p =>
      (cleanupRoom connectionId p.2).map (fun cs => (p.1, cs))) }

/-- The index the for-loop of removeConnection (server.go) finds: first
client with the given connectionId. -/
def findConnIdx (connectionId : String) : List Client → Option Nat
  | [] => none
  | c :: rest =>
      if c.connectionId = connectionId then some 0
      else (findConnIdx connectionId rest).map (fun i => i + 1)

/-- The slice surgery of removeConnection (server.go): overwrite position
index with the last element, then drop the last element. -/
def swapRemove (l : List Client) (index : Nat) : List Client :=
  match l.getLast? with
  | none => l
  | some last => (l.set index last).dropLast

/-- removeConnection (server.go): find the connection with the given id;
if absent, fall through and return unchanged; if present, swap-remove it
from the slice and purge the id from every room via cleanup. -/
def removeConnection (s : State) (connectionId : String) : State :=
  match findConnIdx connectionId s.connections with
  | none => s
  | some index =>
      cleanup { s with connections := swapRemove s.connections index }
        connectionId

/-- onConnect (server.go): append the client to the registry (no duplicate
check in the code) and dispatch the connect lifecycle event. -/
def onConnect (s : State) (client : Client) : State :=
  { s with connections := s.connections ++ [client] }

/-- The lifecycle events the supervisor dispatches (server.go fires the
registered connect / disconnect / error listener at these points). -/
inductive LifeEvent
  | connect
  | disconnect
  | error
deriving DecidableEq, Repr

/-- A handler invocation performed by processMessage. -/
structure Invocation where
  eventName : String
  payload : Payload
  client : Client
deriving DecidableEq, Repr

/-- processMessage (server.go): if a listener is registered for the
event name of the message, invoke it; otherwise do nothing. The listener
itself is external application code, so the embedding records the
invocation and leaves the server state to it untouched. -/
def processMessage (s : State) (message : Message) (client : Client) :
    State × List Invocation :=
  if message.eventName ∈ s.listeners then
    (s, [⟨message.eventName, message.payload, client⟩])
  else (s, [])

/-- onDisconnect (server.go): removeConnection, then dispatch the
disconnect lifecycle event. -/
def onDisconnect (s : State) (client : Client) : State × List LifeEvent :=
  (removeConnection s client.connectionId, [LifeEvent.disconnect])

/-- onError (server.go): removeConnection, then dispatch the error
lifecycle event. -/
def onError (s : State) (client : Client) : State × List LifeEvent :=
  (removeConnection s client.connectionId, [LifeEvent.error])

/-- One inbound read-loop step of handleConnections: a frame that
json.Unmarshal decodes to a Message, or a frame it rejects. The read loop
runs until ws.ReadMessage fails (peer gone), modelled by the end of the
inbound list. -/
inductive Inbound
  | frame (m : Message)
  | badFrame
deriving DecidableEq, Repr

/-- The for-loop of handleConnections (server.go): read failure at the end
of the script triggers onDisconnect and breaks; a frame json.Unmarshal
rejects triggers onError and breaks; a decoded frame goes through
processMessage and the loop continues. -/
def runLoop (s : State) (client : Client) : List Inbound → State × List LifeEvent
  | [] => onDisconnect s client
  | Inbound.badFrame :: _ => onError s client
  | Inbound.frame m :: rest => runLoop (processMessage s m client).1 client rest

/-- Go url.Values lookup: first value for the key, if the key is present. -/
def paramsGet : List (String × String) → String → Option String
  | [], _ => none
  | p :: rest, key => if p.1 = key then some p.2 else paramsGet rest key

/-- Go url.Values.Get: the value for the key, or the empty string when the
key is absent. -/
def getParam (params : List (String × String)) (key : String) : String :=
  (paramsGet params key).getD ""

/-- ishex from Go net/url: ASCII hex digit. -/
def ishex (c : Char) : Bool :=
  (decide ('0' ≤ c) && decide (c ≤ '9')) ||
  (decide ('a' ≤ c) && decide (c ≤ 'f')) ||
  (decide ('A' ≤ c) && decide (c ≤ 'F'))

/-- unhex from Go net/url: value of an ASCII hex digit. -/
def unhex (c : Char) : Nat :=
  if decide ('0' ≤ c) && decide (c ≤ '9') then c.toNat - Char.toNat '0'
  else if decide ('a' ≤ c) && decide (c ≤ 'f') then c.toNat - Char.toNat 'a' + 10
  else if decide ('A' ≤ c) && decide (c ≤ 'F') then c.toNat - Char.toNat 'A' + 10
  else 0

/-- Go net/url unescape in query-component mode, over the byte sequence:
percent followed by two hex digits decodes to that byte, a percent not
followed by two in-bounds hex digits is an EscapeError (none), plus
decodes to a space, everything else passes through. -/
def unescapeChars : List Char → Option (List Char)
  | [] => some []
  | '%' :: a :: b :: rest =>
      if ishex a && ishex b then
        (unescapeChars rest).map
          (fun r => Char.ofNat (16 * unhex a + unhex b) :: r)
      else none
  | '%' :: _ => none
  | '+' :: rest => (unescapeChars rest).map (fun r => ' ' :: r)
  | c :: rest => (unescapeChars rest).map (fun r => c :: r)

/-- Go url.QueryUnescape: none models the error return. -/
def QueryUnescape (s : String) : Option String :=
  (unescapeChars s.data).map List.asString

/-- Go strings.SplitN(param, sep-char, 2) outcome: the part before the
first separator, and the part after it when the separator occurs. -/
def splitN2 (sep : Char) : List Char → List Char × Option (List Char)
  | [] => ([], none)
  | c :: rest =>
      if c = sep then ([], some rest)
      else
        let r := splitN2 sep rest
        (c :: r.1, r.2)

/-- Go strings.Split on a one-character separator. -/
def splitOnChar (sep : Char) : List Char → List (List Char)
  | [] => [[]]
  | c :: rest =>
      match splitOnChar sep rest with
      | [] => [[]]
      | h :: t => if c = sep then [] :: h :: t else (c :: h) :: t

/-- Go map write output[k] = v on a string map. -/
def mapSet (output : List (String × String)) (k v : String) :
    List (String × String) :=
  match output with
  | [] => [(k, v)]
  | p :: rest => if p.1 = k then (k, v) :: rest else p :: mapSet rest k v

/-- The loop body of DecodeQueryData (hepers.go): split the fragment at
the first equals sign; if it has no equals sign it is dropped, otherwise
the key-value pair is stored. -/
def decodeParamStep (output : List (String × String)) (param : List Char) :
    List (String × String) :=
  match splitN2 '=' param with
  | (_, none) => output
  | (k, some v) => mapSet output k.asString v.asString

/-- DecodeQueryData (hepers.go): empty input yields the empty map with no
error; otherwise URL-unescape the input (propagating its error), split on
ampersands and fold the fragments into the map. -/
def DecodeQueryData (queryData : String) :
    Except String (List (String × String)) :=
  if queryData = "" then Except.ok []
  else
    match QueryUnescape queryData with
    | none => Except.error "error decoding queryData"
    | some decoded =>
        Except.ok ((splitOnChar '&' decoded.data).foldl decodeParamStep [])

/-- createClient (server.go): build the client with the generated
connection id, the auth query parameter, and the decoded queryData query
parameter; on a decode error the client is returned without its Query
field together with the error. -/
def createClient (connectionId : String)
    (queryParams : List (String × String)) : Client × Option String :=
  let auth := getParam queryParams "auth"
  let base : Client := { connectionId := connectionId, auth := auth, query := [] }
  match DecodeQueryData (getParam queryParams "queryData") with
  | Except.error e => (base, some e)
  | Except.ok q => ({ base with query := q }, none)

/-- handleConnections (server.go), after the websocket upgrade: build the
client; on a parameter-decode error run onError and return; otherwise run
onConnect (which fires connect) and enter the read loop. The connection id
comes from CreateConnectionId (hepers.go), an external random generator,
so it is a parameter here. -/
def handleConnections (s : State) (connectionId : String)
    (queryParams : List (String × String)) (script : List Inbound) :
    State × List LifeEvent :=
  let (client, err) := createClient connectionId queryParams
  match err with
  | some _ => onError s client
  | none =>
      let s1 := onConnect s client
      let r := runLoop s1 client script
      (r.1, LifeEvent.connect :: r.2)

/-- Emit (server.go) writes one encoded message to the socket of one client;
EmitTo (server.go): read the room entry; if nil, return with no sends;
otherwise emit the message to every member. The sends are returned as
(connectionId, message) pairs; no server state is touched. -/
def EmitTo (s : State) (roomId eventName : String) (payload : Payload) :
    State × List (String × Message) :=
  match roomsGet s.rooms roomId with
  | none => (s, [])
  | some room =>
      (s, room.map (fun c => (c.connectionId, ⟨eventName, payload⟩)))

/-- The operations of the state machine under the claims: JoinRoom, connection
removal (which triggers cleanup), and onConnect registration. -/
inductive Op
  | join (roomId : String) (client : Client)
  | removeConn (connectionId : String)
  | connect (client : Client)
deriving DecidableEq, Repr

/-- Apply one operation to the server state. -/
def applyOp (s : State) : Op → State
  | Op.join roomId client => JoinRoom s roomId client
  | Op.removeConn connectionId => removeConnection s connectionId
  | Op.connect client => onConnect s client

/-- Run a sequence of operations from the freshly initialised server. -/
def run (ops : List Op) : State :=
  ops.foldl applyOp initState

/-- Every room entry of a state has pairwise distinct member ids. -/
def roomsNodup (s : State) : Prop :=
  ∀ p ∈ s.rooms, (roomIds p.2).Nodup

/-- Every room entry of a state has a nonempty member list. -/
def roomsNonempty (s : State) : Prop :=
  ∀ p ∈ s.rooms, p.2 ≠ []

/-- A concrete client used to instantiate the theorems. -/
def clientA : Client :=
  { connectionId := "a", auth := "", query := [] }

/-- A second concrete client used to instantiate the theorems. -/
def clientB : Client :=
  { connectionId := "b", auth := "", query := [] }

/-- A concrete two-client state with two rooms, used to instantiate the
theorems. -/
def demoState : State :=
  { listeners := []
    connections := [clientA, clientB]
    rooms := [("lobby", [clientA, clientB]), ("solo", [clientA])] }

/-- A concrete state already holding clientA, used to exhibit the missing
duplicate check of onConnect. -/
def dupState : State :=
  { listeners := [], connections := [clientA], rooms := [] }

theorem IndexOf_nonneg (cid : String) :
    ∀ cs : List Client, IndexOf cid cs ≠ -1 → 0 ≤ IndexOf cid cs := by
  intro cs
  induction cs with
  | nil => intro h; exact absurd rfl h
  | cons c rest ih =>
      intro h
      by_cases hc : c.connectionId = cid
      · simp [IndexOf, hc]
      · simp only [IndexOf, hc, if_false] at h ⊢
        by_cases hr : IndexOf cid rest = -1
        · simp [hr] at h
        · have := ih hr
          simp [hr]
          omega

theorem roomIds_cons (c : Client) (rest : List Client) :
    roomIds (c :: rest) = c.connectionId :: roomIds rest := rfl

theorem IndexOf_eq_neg_one_iff (cid : String) :
    ∀ cs : List Client, IndexOf cid cs = -1 ↔ cid ∉ roomIds cs := by
  intro cs
  induction cs with
  | nil => simp [IndexOf, roomIds]
  | cons c rest ih =>
      rw [roomIds_cons]
      by_cases hc : c.connectionId = cid
      · constructor
        · intro h
          rw [show IndexOf cid (c :: rest) = 0 from by simp [IndexOf, hc]] at h
          exact absurd h (by decide)
        · intro h
          exact absurd (hc ▸ List.mem_cons_self c.connectionId (roomIds rest)) h
      · constructor
        · intro h hmem
          rcases List.mem_cons.mp hmem with h1 | h1
          · exact hc h1.symm
          · have hr : IndexOf cid rest ≠ -1 := fun e => (ih.mp e) h1
            have hge := IndexOf_nonneg cid rest hr
            simp only [IndexOf, hc, if_false] at h
            rw [if_neg hr] at h
            omega
        · intro h
          have h2 : cid ∉ roomIds rest :=
            fun hm => h (List.mem_cons_of_mem _ hm)
          have hr : IndexOf cid rest = -1 := ih.mpr h2
          simp only [IndexOf, hc, if_false]
          rw [if_pos hr]

theorem roomsGet_roomsSet_self (rooms : List (String × List Client))
    (roomId : String) (cs : List Client) :
    roomsGet (roomsSet rooms roomId cs) roomId = some cs := by
  induction rooms with
  | nil => simp [roomsSet, roomsGet]
  | cons p rest ih =>
      by_cases h : p.1 = roomId
      · simp [roomsSet, h, roomsGet]
      · simp [roomsSet, h, roomsGet, ih]

theorem mem_roomsSet {rooms : List (String × List Client)} {roomId : String}
    {cs : List Client} {p : String × List Client}
    (h : p ∈ roomsSet rooms roomId cs) : p = (roomId, cs) ∨ p ∈ rooms := by
  induction rooms with
  | nil =>
      simp [roomsSet] at h
      exact Or.inl h
  | cons q rest ih =>
      by_cases hq : q.1 = roomId
      · simp [roomsSet, hq] at h
        rcases h with h | h
        · exact Or.inl h
        · exact Or.inr (List.mem_cons_of_mem _ h)
      · simp only [roomsSet, hq, if_false, List.mem_cons] at h
        rcases h with h | h
        · exact Or.inr (by rw [h]; exact List.mem_cons_self q rest)
        · rcases ih h with h1 | h1
          · exact Or.inl h1
          · exact Or.inr (List.mem_cons_of_mem _ h1)

theorem roomsGet_mem {rooms : List (String × List Client)} {roomId : String}
    {cs : List Client} (h : roomsGet rooms roomId = some cs) :
    (roomId, cs) ∈ rooms := by
  induction rooms with
  | nil => simp [roomsGet] at h
  | cons p rest ih =>
      by_cases hp : p.1 = roomId
      · simp [roomsGet, hp] at h
        refine List.mem_cons.mpr (Or.inl ?_)
        cases p with
        | mk a b =>
            simp at hp h
            rw [hp, h]
      · simp [roomsGet, hp] at h
        exact List.mem_cons_of_mem _ (ih h)

theorem eraseIdx_IndexOf_no_id (cid : String) :
    ∀ cs : List Client, (roomIds cs).Nodup → IndexOf cid cs ≠ -1 →
      cid ∉ roomIds (cs.eraseIdx (IndexOf cid cs).toNat) := by
  intro cs
  induction cs with
  | nil => intro _ h; exact absurd rfl h
  | cons c rest ih =>
      intro hnd h
      rw [roomIds_cons] at hnd
      by_cases hc : c.connectionId = cid
      · rw [show IndexOf cid (c :: rest) = 0 from by simp [IndexOf, hc]]
        rw [show ((0 : Int)).toNat = 0 from rfl, List.eraseIdx_cons_zero]
        exact fun hm => (List.nodup_cons.mp hnd).1 (hc ▸ hm)
      · have hr : IndexOf cid rest ≠ -1 := by
          intro e
          simp only [IndexOf, hc, if_false] at h
          rw [if_pos e] at h
          exact h rfl
        have hge := IndexOf_nonneg cid rest hr
        have hstep : IndexOf cid (c :: rest) = IndexOf cid rest + 1 := by
          simp only [IndexOf, hc, if_false]
          rw [if_neg hr]
        rw [hstep, show (IndexOf cid rest + 1).toNat = (IndexOf cid rest).toNat + 1 from by omega]
        rw [List.eraseIdx_cons_succ, roomIds_cons]
        intro hm
        rcases List.mem_cons.mp hm with h1 | h1
        · exact hc h1.symm
        · exact ih (List.nodup_cons.mp hnd).2 hr h1

theorem cleanupRoom_no_id (cid : String) (cs cs' : List Client)
    (hnd : (roomIds cs).Nodup) (h : cleanupRoom cid cs = some cs') :
    cid ∉ roomIds cs' := by
  unfold cleanupRoom at h
  by_cases hidx : IndexOf cid cs = -1
  · rw [if_pos hidx] at h
    cases h
    exact (IndexOf_eq_neg_one_iff cid cs).mp hidx
  · rw [if_neg hidx] at h
    by_cases hlen : (cs.eraseIdx (IndexOf cid cs).toNat).length = 0
    · simp [hlen] at h
    · simp [hlen] at h
      rw [← h]
      exact eraseIdx_IndexOf_no_id cid cs hnd hidx

theorem cleanupRoom_nonempty (cid : String) (cs cs' : List Client)
    (h0 : cs ≠ []) (h : cleanupRoom cid cs = some cs') : cs' ≠ [] := by
  unfold cleanupRoom at h
  by_cases hidx : IndexOf cid cs = -1
  · rw [if_pos hidx] at h
    cases h
    exact h0
  · rw [if_neg hidx] at h
    by_cases hlen : (cs.eraseIdx (IndexOf cid cs).toNat).length = 0
    · simp [hlen] at h
    · simp [hlen] at h
      rw [← h]
      exact fun e => hlen (by rw [e]; rfl)

theorem cleanupRoom_nodup (cid : String) (cs cs' : List Client)
    (hnd : (roomIds cs).Nodup) (h : cleanupRoom cid cs = some cs') :
    (roomIds cs').Nodup := by
  unfold cleanupRoom at h
  by_cases hidx : IndexOf cid cs = -1
  · rw [if_pos hidx] at h
    cases h
    exact hnd
  · rw [if_neg hidx] at h
    by_cases hlen : (cs.eraseIdx (IndexOf cid cs).toNat).length = 0
    · simp [hlen] at h
    · simp [hlen] at h
      rw [← h]
      exact List.Nodup.sublist (List.Sublist.map _ (List.eraseIdx_sublist _ _)) hnd

theorem findConnIdx_eq_none_iff (cid : String) :
    ∀ l : List Client, findConnIdx cid l = none ↔ cid ∉ roomIds l := by
  intro l
  induction l with
  | nil => simp [findConnIdx, roomIds]
  | cons c rest ih =>
      rw [roomIds_cons]
      by_cases hc : c.connectionId = cid
      · simp [findConnIdx, hc]
      · simp only [findConnIdx, hc, if_false, List.mem_cons]
        cases hrec : findConnIdx cid rest with
        | none =>
            simp [hrec] at ih
            simp [ih]
            exact fun h => hc h.symm
        | some j =>
            simp [hrec] at ih
            simp [ih]

theorem swapRemove_cons (c : Client) (rest : List Client) (j : Nat)
    (h : rest ≠ []) : swapRemove (c :: rest) (j + 1) = c :: swapRemove rest j := by
  cases rest with
  | nil => exact absurd rfl h
  | cons d ds =>
      have hlast : (d :: ds).getLast? = some ((d :: ds).getLast (by simp)) :=
        List.getLast?_eq_getLast_of_ne_nil (by simp)
      simp only [swapRemove, List.getLast?_cons_cons, hlast]
      rw [List.set_cons_succ]
      cases hset : (d :: ds).set j ((d :: ds).getLast (by simp)) with
      | nil =>
          have : ((d :: ds).set j ((d :: ds).getLast (by simp))).length = ds.length + 1 :=
            List.length_set _ _ _
          rw [hset] at this
          simp at this
      | cons e es =>
          rw [List.dropLast_cons₂]

theorem findConnIdx_rest_ne_nil {cid : String} {rest : List Client} {j : Nat}
    (h : findConnIdx cid rest = some j) : rest ≠ [] := by
  intro e
  rw [e] at h
  simp [findConnIdx] at h

theorem swapRemove_no_id (cid : String) :
    ∀ (l : List Client) (i : Nat), (roomIds l).Nodup →
      findConnIdx cid l = some i → cid ∉ roomIds (swapRemove l i) := by
  intro l
  induction l with
  | nil => intro i _ h; simp [findConnIdx] at h
  | cons c rest ih =>
      intro i hnd h
      rw [roomIds_cons] at hnd
      by_cases hc : c.connectionId = cid
      · have hi : i = 0 := by
          simp [findConnIdx, hc] at h
          exact h.symm
        subst hi
        cases rest with
        | nil =>
            show cid ∉ roomIds (swapRemove [c] 0)
            simp [swapRemove, roomIds]
        | cons d ds =>
            have hlast : (d :: ds).getLast? = some ((d :: ds).getLast (by simp)) :=
              List.getLast?_eq_getLast_of_ne_nil (by simp)
            simp only [swapRemove, List.getLast?_cons_cons, hlast]
            rw [List.set_cons_zero, List.dropLast_cons₂, roomIds_cons]
            intro hm
            have hnotin : cid ∉ roomIds (d :: ds) := hc ▸ (List.nodup_cons.mp hnd).1
            rcases List.mem_cons.mp hm with h1 | h1
            · have hmem : (d :: ds).getLast (by simp) ∈ d :: ds :=
                List.getLast_mem _
              exact hnotin (h1 ▸ List.mem_map_of_mem _ hmem)
            · rcases List.mem_map.mp h1 with ⟨x, hx, hxe⟩
              have : x ∈ d :: ds := List.dropLast_subset _ hx
              exact hnotin (hxe ▸ List.mem_map_of_mem _ this)
      · have hrec : ∃ j, findConnIdx cid rest = some j ∧ i = j + 1 := by
          simp only [findConnIdx, hc, if_false] at h
          cases hr : findConnIdx cid rest with
          | none => rw [hr] at h; simp at h
          | some j =>
              rw [hr] at h
              simp at h
              exact ⟨j, rfl, h.symm⟩
        rcases hrec with ⟨j, hj, hi⟩
        subst hi
        rw [swapRemove_cons c rest j (findConnIdx_rest_ne_nil hj), roomIds_cons]
        intro hm
        rcases List.mem_cons.mp hm with h1 | h1
        · exact hc h1.symm
        · exact ih j (List.nodup_cons.mp hnd).2 hj h1

theorem length_swapRemove (l : List Client) (i : Nat) (h : l ≠ []) :
    (swapRemove l i).length = l.length - 1 := by
  cases l with
  | nil => exact absurd rfl h
  | cons c rest =>
      have hlast : (c :: rest).getLast? = some ((c :: rest).getLast (by simp)) :=
        List.getLast?_eq_getLast_of_ne_nil (by simp)
      simp only [swapRemove, hlast]
      rw [List.length_dropLast, List.length_set]

theorem JoinRoom_none (s : State) (roomId : String) (c : Client)
    (h : roomsGet s.rooms roomId = none) :
    JoinRoom s roomId c = { s with rooms := roomsSet s.rooms roomId [c] } := by
  unfold JoinRoom
  simp only [h]

theorem JoinRoom_already (s : State) (roomId : String) (c : Client)
    (cs : List Client) (h : roomsGet s.rooms roomId = some cs)
    (hidx : IndexOf c.connectionId cs ≠ -1) : JoinRoom s roomId c = s := by
  unfold JoinRoom
  simp only [h]
  rw [if_pos hidx]

theorem JoinRoom_append (s : State) (roomId : String) (c : Client)
    (cs : List Client) (h : roomsGet s.rooms roomId = some cs)
    (hidx : IndexOf c.connectionId cs = -1) :
    JoinRoom s roomId c = { s with rooms := roomsSet s.rooms roomId (cs ++ [c]) } := by
  unfold JoinRoom
  simp only [h]
  rw [if_neg (by rw [hidx]; exact not_not_intro rfl)]

theorem JoinRoom_pres (s : State) (roomId : String) (c : Client)
    (h1 : roomsNonempty s) (h2 : roomsNodup s) :
    roomsNonempty (JoinRoom s roomId c) ∧ roomsNodup (JoinRoom s roomId c) := by
  cases hget : roomsGet s.rooms roomId with
  | none =>
      rw [JoinRoom_none s roomId c hget]
      constructor
      · intro p hp
        rcases mem_roomsSet hp with h | h
        · rw [h]; simp
        · exact h1 p h
      · intro p hp
        rcases mem_roomsSet hp with h | h
        · rw [h]; simp [roomIds]
        · exact h2 p h
  | some cs =>
      by_cases hidx : IndexOf c.connectionId cs ≠ -1
      · rw [JoinRoom_already s roomId c cs hget hidx]
        exact ⟨h1, h2⟩
      · rw [JoinRoom_append s roomId c cs hget (not_not.mp hidx)]
        have hnotmem : c.connectionId ∉ roomIds cs :=
          (IndexOf_eq_neg_one_iff _ _).mp (not_not.mp hidx)
        have hmem : (roomId, cs) ∈ s.rooms := roomsGet_mem hget
        constructor
        · intro p hp
          rcases mem_roomsSet hp with h | h
          · rw [h]; simp
          · exact h1 p h
        · intro p hp
          rcases mem_roomsSet hp with h | h
          · rw [h]
            show (roomIds (cs ++ [c])).Nodup
            have he : roomIds (cs ++ [c]) = roomIds cs ++ [c.connectionId] := by
              simp [roomIds]
            rw [he]
            simp [List.nodup_append, h2 _ hmem, hnotmem]
          · exact h2 p h

theorem cleanup_pres (s : State) (cid : String)
    (h1 : roomsNonempty s) (h2 : roomsNodup s) :
    roomsNonempty (cleanup s cid) ∧ roomsNodup (cleanup s cid) := by
  constructor
  · intro p hp
    rcases List.mem_filterMap.mp hp with ⟨q, hq, hfq⟩
    cases hcr : cleanupRoom cid q.2 with
    | none => rw [hcr] at hfq; simp at hfq
    | some cs' =>
        rw [hcr] at hfq
        simp at hfq
        rw [← hfq]
        exact cleanupRoom_nonempty cid q.2 cs' (h1 q hq) hcr
  · intro p hp
    rcases List.mem_filterMap.mp hp with ⟨q, hq, hfq⟩
    cases hcr : cleanupRoom cid q.2 with
    | none => rw [hcr] at hfq; simp at hfq
    | some cs' =>
        rw [hcr] at hfq
        simp at hfq
        rw [← hfq]
        exact cleanupRoom_nodup cid q.2 cs' (h2 q hq) hcr

theorem removeConnection_pres (s : State) (cid : String)
    (h1 : roomsNonempty s) (h2 : roomsNodup s) :
    roomsNonempty (removeConnection s cid) ∧ roomsNodup (removeConnection s cid) := by
  unfold removeConnection
  cases hfind : findConnIdx cid s.connections with
  | none => exact ⟨h1, h2⟩
  | some i =>
      exact cleanup_pres { s with connections := swapRemove s.connections i } cid h1 h2

theorem applyOp_pres (s : State) (op : Op)
    (h1 : roomsNonempty s) (h2 : roomsNodup s) :
    roomsNonempty (applyOp s op) ∧ roomsNodup (applyOp s op) := by
  cases op with
  | join roomId c => exact JoinRoom_pres s roomId c h1 h2
  | removeConn cid => exact removeConnection_pres s cid h1 h2
  | connect c => exact ⟨h1, h2⟩

theorem run_invariants (ops : List Op) :
    roomsNonempty (run ops) ∧ roomsNodup (run ops) := by
  unfold run
  have hgen : ∀ (l : List Op) (s : State),
      roomsNonempty s → roomsNodup s →
      roomsNonempty (l.foldl applyOp s) ∧ roomsNodup (l.foldl applyOp s) := by
    intro l
    induction l with
    | nil => intro s hs1 hs2; exact ⟨hs1, hs2⟩
    | cons op rest ih =>
        intro s hs1 hs2
        have := applyOp_pres s op hs1 hs2
        exact ih (applyOp s op) this.1 this.2
  exact hgen ops initState (by intro p hp; simp [initState] at hp)
    (by intro p hp; simp [initState] at hp)

theorem removeConnection_none (s : State) (cid : String)
    (h : findConnIdx cid s.connections = none) : removeConnection s cid = s := by
  unfold removeConnection
  simp only [h]

theorem removeConnection_some (s : State) (cid : String) (i : Nat)
    (h : findConnIdx cid s.connections = some i) :
    removeConnection s cid =
      cleanup { s with connections := swapRemove s.connections i } cid := by
  unfold removeConnection
  simp only [h]

theorem connIds_eq_roomIds (s : State) : connIds s = roomIds s.connections := rfl

theorem connIds_removeConnection_some (s : State) (cid : String) (i : Nat)
    (h : findConnIdx cid s.connections = some i) :
    connIds (removeConnection s cid) = roomIds (swapRemove s.connections i) := by
  rw [removeConnection_some s cid i h]
  rfl

/-- Claim C1: for a session present in the connection registry of a state
whose rooms have duplicate-free member ids (an invariant of every
reachable state, run_invariants), removeConnection decreases
GetTotalConnections by exactly one and leaves the connectionId of the session
absent from the member list of every room in the room table. -/
theorem C1_remove_decrements_and_purges (s : State) (cid : String)
    (hmem : cid ∈ connIds s) (hrooms : roomsNodup s) :
    GetTotalConnections s = GetTotalConnections (removeConnection s cid) + 1 ∧
    ∀ p ∈ (removeConnection s cid).rooms, cid ∉ roomIds p.2 := by
  cases hfind : findConnIdx cid s.connections with
  | none =>
      exact absurd hmem ((findConnIdx_eq_none_iff cid s.connections).mp hfind)
  | some i =>
      rw [removeConnection_some s cid i hfind]
      constructor
      · show s.connections.length = (swapRemove s.connections i).length + 1
        have hne : s.connections ≠ [] := by
          intro e
          rw [connIds_eq_roomIds, e] at hmem
          simp [roomIds] at hmem
        rw [length_swapRemove _ _ hne]
        have hlen : s.connections.length ≠ 0 :=
          fun e => hne (List.length_eq_zero.mp e)
        omega
      · intro p hp
        rcases List.mem_filterMap.mp hp with ⟨q, hq, hfq⟩
        cases hcr : cleanupRoom cid q.2 with
        | none => rw [hcr] at hfq; simp at hfq
        | some cs' =>
            rw [hcr] at hfq
            simp at hfq
            rw [← hfq]
            exact cleanupRoom_no_id cid q.2 cs' (hrooms q hq) hcr

/-- Witness for claim C1 at a concrete state: both hypotheses hold for
demoState and client id a, and removing it empties the solo room and
purges it from the lobby. -/
theorem C1_witness :
    ("a" ∈ connIds demoState ∧ roomsNodup demoState) ∧
    (GetTotalConnections demoState =
      GetTotalConnections (removeConnection demoState "a") + 1 ∧
    ∀ p ∈ (removeConnection demoState "a").rooms, "a" ∉ roomIds p.2) := by
  refine ⟨⟨by decide, by unfold roomsNodup; decide⟩, ?_⟩
  exact C1_remove_decrements_and_purges demoState "a" (by decide)
    (by unfold roomsNodup; decide)

/-- Claim C2: starting from the initial empty state, no sequence of
JoinRoom, connection-removal and onConnect operations can leave a room
identifier mapped to an empty member list in the room table. -/
theorem C2_no_empty_room_persists (ops : List Op) :
    ∀ p ∈ (run ops).rooms, p.2 ≠ [] :=
  (run_invariants ops).1

/-- Witness for claim C2 at a concrete operation sequence: the lobby room
created by one join is a table entry, and the theorem yields its
nonemptiness. -/
theorem C2_witness :
    ("lobby", [clientA]) ∈ (run [Op.join "lobby" clientA]).rooms ∧
    ([clientA] : List Client) ≠ [] := by
  refine ⟨by decide, ?_⟩
  exact C2_no_empty_room_persists [Op.join "lobby" clientA]
    ("lobby", [clientA]) (by decide)

/-- Claim C6: removeConnection is idempotent and total. On a state whose
registry ids are duplicate-free: when the id is absent the call returns
the state unchanged (the silent not-found no-op), when it is present the
id is removed from the registry, and calling it twice equals calling it
once. -/
theorem C6_removeConnection_idempotent (s : State) (cid : String)
    (hnd : (connIds s).Nodup) :
    (cid ∉ connIds s → removeConnection s cid = s) ∧
    (cid ∈ connIds s → cid ∉ connIds (removeConnection s cid)) ∧
    removeConnection (removeConnection s cid) cid = removeConnection s cid := by
  have habs : ∀ t : State, cid ∉ connIds t → removeConnection t cid = t := by
    intro t ht
    exact removeConnection_none t cid
      ((findConnIdx_eq_none_iff cid t.connections).mpr ht)
  have hrem : cid ∈ connIds s → cid ∉ connIds (removeConnection s cid) := by
    intro hm
    cases hfind : findConnIdx cid s.connections with
    | none =>
        exact absurd hm ((findConnIdx_eq_none_iff cid s.connections).mp hfind)
    | some i =>
        rw [connIds_removeConnection_some s cid i hfind]
        exact swapRemove_no_id cid s.connections i hnd hfind
  refine ⟨habs s, hrem, ?_⟩
  by_cases hm : cid ∈ connIds s
  · exact habs _ (hrem hm)
  · rw [habs s hm]
    exact habs s hm

/-- Witness for claim C6 at a concrete state: demoState has
duplicate-free registry ids and removing id a twice equals removing it
once. -/
theorem C6_witness :
    (connIds demoState).Nodup ∧
    removeConnection (removeConnection demoState "a") "a" =
      removeConnection demoState "a" := by
  refine ⟨by decide, ?_⟩
  exact (C6_removeConnection_idempotent demoState "a" (by decide)).2.2

/-- Claim C4: JoinRoom is idempotent. Joining twice equals joining once;
joining a client already a member (by connection id) of the room returns
the state unchanged; and the first join of a room identifier creates the
entry holding exactly that client. -/
theorem C4_JoinRoom_idempotent (s : State) (roomId : String) (c : Client) :
    JoinRoom (JoinRoom s roomId c) roomId c = JoinRoom s roomId c ∧
    (∀ cs, roomsGet s.rooms roomId = some cs →
      c.connectionId ∈ roomIds cs → JoinRoom s roomId c = s) ∧
    (roomsGet s.rooms roomId = none →
      roomsGet (JoinRoom s roomId c).rooms roomId = some [c]) := by
  refine ⟨?_, ?_, ?_⟩
  · cases hget : roomsGet s.rooms roomId with
    | none =>
        rw [JoinRoom_none s roomId c hget]
        refine JoinRoom_already _ roomId c [c] ?_ ?_
        · exact roomsGet_roomsSet_self s.rooms roomId [c]
        · intro e
          have hni := (IndexOf_eq_neg_one_iff c.connectionId [c]).mp e
          exact hni (by simp [roomIds])
    | some cs =>
        by_cases hidx : IndexOf c.connectionId cs ≠ -1
        · rw [JoinRoom_already s roomId c cs hget hidx,
            JoinRoom_already s roomId c cs hget hidx]
        · have hidx' := not_not.mp hidx
          rw [JoinRoom_append s roomId c cs hget hidx']
          refine JoinRoom_already _ roomId c (cs ++ [c]) ?_ ?_
          · exact roomsGet_roomsSet_self s.rooms roomId (cs ++ [c])
          · intro e
            have hni := (IndexOf_eq_neg_one_iff c.connectionId (cs ++ [c])).mp e
            exact hni (by simp [roomIds])
  · intro cs hget hm
    exact JoinRoom_already s roomId c cs hget
      (fun e => ((IndexOf_eq_neg_one_iff _ _).mp e) hm)
  · intro hget
    rw [JoinRoom_none s roomId c hget]
    exact roomsGet_roomsSet_self s.rooms roomId [c]

/-- Witness for claim C4 at a concrete input: the initial state has no
lobby room, the first join creates the entry with exactly clientA, and
joining twice equals joining once. -/
theorem C4_witness :
    roomsGet initState.rooms "lobby" = none ∧
    roomsGet (JoinRoom initState "lobby" clientA).rooms "lobby" = some [clientA] ∧
    JoinRoom (JoinRoom initState "lobby" clientA) "lobby" clientA =
      JoinRoom initState "lobby" clientA := by
  refine ⟨by decide, ?_, ?_⟩
  · exact (C4_JoinRoom_idempotent initState "lobby" clientA).2.2 (by decide)
  · exact (C4_JoinRoom_idempotent initState "lobby" clientA).1

/-- Claim C5 counterexample: the code has no duplicate check. At the
concrete state already containing clientA, onConnect with a session
bearing the same connection id does not leave the registry unchanged (and
raises no error of any kind): the duplicate is inserted. -/
theorem C5_counterexample :
    clientA.connectionId ∈ connIds dupState ∧
    (onConnect dupState clientA).connections ≠ dupState.connections := by
  exact ⟨by decide, by decide⟩

/-- Claim C5 amended: onConnect performs no duplicate check. Adding a
session whose connection id is already present in the registry does not
fail and does not leave the registry unchanged: the session is appended
unconditionally, so the multiplicity of that id grows by one. -/
theorem C5_amended_no_duplicate_check (s : State) (c : Client)
    (_hdup : c.connectionId ∈ connIds s) :
    (onConnect s c).connections = s.connections ++ [c] ∧
    (connIds (onConnect s c)).count c.connectionId =
      (connIds s).count c.connectionId + 1 := by
  refine ⟨rfl, ?_⟩
  have h : connIds (onConnect s c) = connIds s ++ [c.connectionId] := by
    simp [connIds, onConnect]
  rw [h, List.count_append]
  simp

/-- Witness for claim C5's amended statement at the concrete duplicate
state. -/
theorem C5_amended_witness :
    clientA.connectionId ∈ connIds dupState ∧
    ((onConnect dupState clientA).connections =
      dupState.connections ++ [clientA] ∧
    (connIds (onConnect dupState clientA)).count clientA.connectionId =
      (connIds dupState).count clientA.connectionId + 1) := by
  refine ⟨by decide, ?_⟩
  exact C5_amended_no_duplicate_check dupState clientA (by decide)

/-- Claim C7: dispatching an inbound message whose event name has no
registered handler runs no handler, changes no server state, and the
read loop continues exactly as if the frame had not arrived. -/
theorem C7_unregistered_event_noop (s : State) (m : Message) (c : Client)
    (h : m.eventName ∉ s.listeners) :
    processMessage s m c = (s, []) ∧
    ∀ rest, runLoop s c (Inbound.frame m :: rest) = runLoop s c rest := by
  have h1 : processMessage s m c = (s, []) := by
    unfold processMessage
    rw [if_neg h]
  refine ⟨h1, ?_⟩
  intro rest
  show runLoop (processMessage s m c).1 c rest = runLoop s c rest
  rw [h1]

/-- Witness for claim C7 at a concrete input: no handler is registered in
the initial state, so the ping message is silently dropped. -/
theorem C7_witness :
    (Message.mk "ping" (Payload.mk "x")).eventName ∉ initState.listeners ∧
    processMessage initState (Message.mk "ping" (Payload.mk "x")) clientA =
      (initState, []) := by
  refine ⟨by decide, ?_⟩
  exact (C7_unregistered_event_noop initState
    (Message.mk "ping" (Payload.mk "x")) clientA (by decide)).1

/-- Claim C9: EmitTo on a room id with no entry in the room table sends
nothing and returns the state unchanged; in particular no empty entry is
created for that room id. -/
theorem C9_EmitTo_missing_room (s : State) (roomId eventName : String)
    (payload : Payload) (h : roomsGet s.rooms roomId = none) :
    EmitTo s roomId eventName payload = (s, []) := by
  unfold EmitTo
  simp only [h]

/-- Witness for claim C9 at a concrete input: demoState has no room named
nowhere, and EmitTo to it is a no-op with no sends. -/
theorem C9_witness :
    roomsGet demoState.rooms "nowhere" = none ∧
    EmitTo demoState "nowhere" "ping" (Payload.mk "42") = (demoState, []) := by
  refine ⟨by decide, ?_⟩
  exact C9_EmitTo_missing_room demoState "nowhere" "ping" (Payload.mk "42")
    (by decide)

theorem createClient_fst_connectionId (cid : String)
    (qp : List (String × String)) :
    (createClient cid qp).1.connectionId = cid := by
  unfold createClient
  cases hD : DecodeQueryData (getParam qp "queryData") with
  | error e => simp [hD]
  | ok q => simp [hD]

theorem handleConnections_parse_fail_snd (s : State) (cid : String)
    (qp : List (String × String)) (script : List Inbound) (e : String)
    (h : (createClient cid qp).2 = some e) :
    (handleConnections s cid qp script).2 = [LifeEvent.error] := by
  unfold handleConnections
  rcases hcc : createClient cid qp with ⟨client, err⟩
  rw [hcc] at h
  simp at h
  simp [hcc, h, onError]

theorem handleConnections_parse_fail_fst (s : State) (cid : String)
    (qp : List (String × String)) (script : List Inbound) (e : String)
    (h : (createClient cid qp).2 = some e) :
    (handleConnections s cid qp script).1 =
      removeConnection s (createClient cid qp).1.connectionId := by
  unfold handleConnections
  rcases hcc : createClient cid qp with ⟨client, err⟩
  rw [hcc] at h
  simp at h
  simp [hcc, h, onError]

theorem handleConnections_parse_ok_snd (s : State) (cid : String)
    (qp : List (String × String)) (script : List Inbound)
    (h : (createClient cid qp).2 = none) :
    (handleConnections s cid qp script).2 =
      LifeEvent.connect ::
        (runLoop (onConnect s (createClient cid qp).1)
          (createClient cid qp).1 script).2 := by
  unfold handleConnections
  rcases hcc : createClient cid qp with ⟨client, err⟩
  rw [hcc] at h
  simp at h
  simp [hcc, h]

theorem runLoop_events : ∀ (script : List Inbound) (s : State) (c : Client),
    (runLoop s c script).2 = [LifeEvent.disconnect] ∨
    (runLoop s c script).2 = [LifeEvent.error] := by
  intro script
  induction script with
  | nil => intro s c; left; rfl
  | cons ib rest ih =>
      intro s c
      cases ib with
      | badFrame => right; rfl
      | frame m => exact ih (processMessage s m c).1 c

/-- Claim C3: over the lifecycle trace of one connection, the connect event is
dispatched at most once and exactly one of disconnect and error is
dispatched; on the parameter-parse-failure path only error fires, connect
does not, and (for a fresh connection id) the registry and room table are
exactly as before: no entry was ever created. -/
theorem C3_lifecycle_events (s : State) (cid : String)
    (qp : List (String × String)) (script : List Inbound)
    (hfresh : cid ∉ connIds s) :
    (handleConnections s cid qp script).2.count LifeEvent.connect ≤ 1 ∧
    (handleConnections s cid qp script).2.count LifeEvent.disconnect +
      (handleConnections s cid qp script).2.count LifeEvent.error = 1 ∧
    ((createClient cid qp).2.isSome = true →
      (handleConnections s cid qp script).2 = [LifeEvent.error] ∧
      (handleConnections s cid qp script).1 = s) := by
  cases hcc : (createClient cid qp).2 with
  | some e =>
      have hsnd := handleConnections_parse_fail_snd s cid qp script e hcc
      have hfst := handleConnections_parse_fail_fst s cid qp script e hcc
      have hstate : (handleConnections s cid qp script).1 = s := by
        rw [hfst, createClient_fst_connectionId]
        exact removeConnection_none s cid
          ((findConnIdx_eq_none_iff cid s.connections).mpr hfresh)
      rw [hsnd]
      exact ⟨by decide, by decide, fun _ => ⟨rfl, hstate⟩⟩
  | none =>
      have hsnd := handleConnections_parse_ok_snd s cid qp script hcc
      rcases runLoop_events script (onConnect s (createClient cid qp).1)
          (createClient cid qp).1 with h | h
      · rw [hsnd, h]
        refine ⟨by decide, by decide, ?_⟩
        intro habs
        simp at habs
      · rw [hsnd, h]
        refine ⟨by decide, by decide, ?_⟩
        intro habs
        simp at habs

/-- Witness for claim C3: a concrete connection with malformed queryData
(a bad percent escape) against the fresh initial state takes the
parameter-failure path, fires only error, and leaves the state exactly
initial. -/
theorem C3_witness :
    ("c1" ∉ connIds initState) ∧
    (createClient "c1" [("queryData", "%zz")]).2.isSome = true ∧
    ((handleConnections initState "c1" [("queryData", "%zz")] []).2 =
      [LifeEvent.error] ∧
    (handleConnections initState "c1" [("queryData", "%zz")] []).1 =
      initState) := by
  refine ⟨by decide, by decide, ?_⟩
  exact (C3_lifecycle_events initState "c1" [("queryData", "%zz")] []
    (by decide)).2.2 (by decide)

theorem DecodeQueryData_empty : DecodeQueryData "" = Except.ok [] := rfl

theorem splitN2_snd_none (sep : Char) :
    ∀ l : List Char, sep ∉ l → (splitN2 sep l).2 = none := by
  intro l
  induction l with
  | nil => intro _; rfl
  | cons c rest ih =>
      intro h
      have hc : ¬ c = sep := fun e => h (e ▸ List.mem_cons_self c rest)
      simp only [splitN2, hc, if_false]
      exact ih (fun hm => h (List.mem_cons_of_mem _ hm))

theorem createClient_no_queryData (cid : String)
    (qp : List (String × String)) (h : paramsGet qp "queryData" = none) :
    (createClient cid qp).2 = none := by
  have hq : getParam qp "queryData" = "" := by
    unfold getParam
    rw [h]
    rfl
  unfold createClient
  rw [hq, DecodeQueryData_empty]

/-- Claim C10: DecodeQueryData errors exactly when its input is nonempty
and URL-unescaping it fails; the empty string yields the empty map with no
error; ampersand-separated fragments lacking an equals sign are silently
dropped by the fold step; hence createClient cannot take the
parameter-failure path when the URL has no queryData parameter. -/
theorem C10_DecodeQueryData_error_iff (qd : String) (cid : String)
    (qp : List (String × String)) (h : paramsGet qp "queryData" = none) :
    ((DecodeQueryData qd).isOk = false ↔ qd ≠ "" ∧ QueryUnescape qd = none) ∧
    DecodeQueryData "" = Except.ok [] ∧
    (∀ (output : List (String × String)) (param : List Char),
      Char.ofNat 61 ∉ param → decodeParamStep output param = output) ∧
    (createClient cid qp).2 = none := by
  refine ⟨?_, DecodeQueryData_empty, ?_, createClient_no_queryData cid qp h⟩
  · unfold DecodeQueryData
    by_cases he : qd = ""
    · rw [if_pos he]
      simp [Except.isOk, Except.toBool, he]
    · rw [if_neg he]
      cases hQ : QueryUnescape qd with
      | none => simp [Except.isOk, Except.toBool, he, hQ]
      | some d => simp [Except.isOk, Except.toBool, he, hQ]
  · intro output param hnm
    unfold decodeParamStep
    have hs : (splitN2 (Char.ofNat 61) param).2 = none :=
      splitN2_snd_none (Char.ofNat 61) param hnm
    have he : Char.ofNat 61 = '=' := rfl
    rw [he] at hs
    cases hsp : splitN2 '=' param with
    | mk a b =>
        rw [hsp] at hs
        simp at hs
        rw [hs]

/-- Witness for claim C10: concrete query parameters without a queryData
key, for which createClient succeeds; the other conjuncts are closed. -/
theorem C10_witness :
    paramsGet [("auth", "t")] "queryData" = none ∧
    (createClient "c1" [("auth", "t")]).2 = none := by
  refine ⟨by decide, ?_⟩
  exact (C10_DecodeQueryData_error_iff "%zz" "c1" [("auth", "t")]
    (by decide)).2.2.2

end SignalIO
